import Mathlib

set_option maxHeartbeats 1000000
set_option maxRecDepth 100000
set_option linter.unusedVariables false

namespace GridBot

/-! Shallow embedding of the grid-trading core in `logic.py`: prices are exact
rationals, Python `round(x, 4)` is round-half-to-even at 4 fractional digits,
the `active_orders` dict is an association list with dict semantics, and the
external exchange/monitor collaborators are an explicit environment of
`Except`-valued oracles (an `error` models a raised exception). -/

/-- Round-half-to-even of a rational to an integer, matching Python's `round`
applied to the exact value. -/
def roundHalfEven (q : ℚ) : ℤ :=
  if q - (Int.floor q : ℚ) < 1/2 then Int.floor q
  else if 1/2 < q - (Int.floor q : ℚ) then Int.floor q + 1
  else if Int.floor q % 2 = 0 then Int.floor q else Int.floor q + 1

/-- Python's `round(x, 4)` (the rounding used for every price key in
`logic.py`), modelled on exact rationals. -/
def round4 (q : ℚ) : ℚ := ((roundHalfEven (q * 10000) : ℤ) : ℚ) / 10000

/-- The `active_orders` dict of `RunningBot`: price level to side string. -/
abbrev OrderBook := List (ℚ × String)

/-- Dict lookup: first entry with the given key. -/
def obLookup (ob : OrderBook) (k : ℚ) : Option String :=
  match ob with
  | [] => none
  | e :: es => if e.1 = k then some e.2 else obLookup es k

/-- Dict key removal (`active_orders.pop(price_key, None)` when present). -/
def obErase (ob : OrderBook) (k : ℚ) : OrderBook :=
  ob.filter (fun e => decide (e.1 ≠ k))

/-- Dict assignment `active_orders[price_key] = side`: overwrite in place if
the key is present, else append. -/
def obInsert (ob : OrderBook) (k : ℚ) (v : String) : OrderBook :=
  match ob with
  | [] => [(k, v)]
  | e :: es => if e.1 = k then (k, v) :: es else e :: obInsert es k v

/-- The `Config` object of `logic.py` (api_url and secret_key are opaque to the
core logic and omitted). -/
structure Config where
  token : String
  min_price : ℚ
  max_price : ℚ
  bin_step : ℚ
  order_size : ℚ
deriving DecidableEq

/-- A fill notification from the monitor (`hyperliquid_monitor` `Trade`): the
fields `on_fill` reads. -/
structure Trade where
  coin : String
  price : ℚ
  trade_type : String
deriving DecidableEq

/-- Behaviour of the external collaborators during one call sequence.
`Except.error` models the collaborator raising an exception; `orderResp price
side = .ok b` models `exchange.order` returning with status ok iff `b`;
`monitorStopResult` models the `HyperliquidMonitor.stop` call made by
`RunningBot.stop`, which can also raise. -/
structure Env where
  cancelAllResult : Except String Unit
  lastCloseResult : Except String ℚ
  orderResp : ℚ → String → Except String Bool
  monitorStopResult : Except String Unit

/-- Result of `ExchangeClient.place_order`: the updated `active_orders` and the
returned boolean. -/
structure PlaceOut where
  orders : OrderBook
  ok : Bool
deriving DecidableEq

/-- `ExchangeClient.place_order` (logic.py lines 47-66): on an ok response it
records `round(price, 4) -> side.lower()` in `active_orders` and returns True;
a non-ok response or a raised exception is caught and returns False with
`active_orders` untouched. -/
def place_order (env : Env) (cfg : Config) (price : ℚ) (side : String)
    (orders : OrderBook) : PlaceOut :=
  let priceKey := round4 price
  match env.orderResp price side with
  | .ok true => ⟨obInsert orders priceKey side.toLower, true⟩
  | .ok false => ⟨orders, false⟩
  | .error _ => ⟨orders, false⟩

/-- Whether the exchange accepts an order: `exchange.order` returns without
raising and with status ok. -/
def placeSucceeds (env : Env) (price : ℚ) (side : String) : Bool :=
  match env.orderResp price side with
  | .ok true => true
  | .ok false => false
  | .error _ => false

/-- Length of `np.arange(start, stop, step)`: `ceil((stop - start) / step)`
clamped at zero. -/
def arangeLen (start stop step : ℚ) : ℕ :=
  (Int.ceil ((stop - start) / step)).toNat

/-- The level list of `GridManager.build`: `[round(p, 4) for p in
np.arange(min_price, max_price + bin_step/2, bin_step)]`. -/
def gridLevels (cfg : Config) : List ℚ :=
  (List.range (arangeLen cfg.min_price (cfg.max_price + cfg.bin_step / 2)
      cfg.bin_step)).map
    (fun k : ℕ => round4 (cfg.min_price + (k : ℚ) * cfg.bin_step))

/-- One step of Python's `min(..., key=f)`: the accumulator is replaced only on
a strictly smaller key, so the first minimal element wins. -/
def pickMin (f : ℚ → ℚ) (best y : ℚ) : ℚ := if f y < f best then y else best

/-- Python's `min(levels, key=f)`; `none` on the empty list (where Python
raises ValueError). -/
def pyMinBy (f : ℚ → ℚ) : List ℚ → Option ℚ
  | [] => none
  | x :: xs => some (xs.foldl (pickMin f) x)

/-- Python's `list.remove`: drop the first occurrence. -/
def removeFirst : List ℚ → ℚ → List ℚ
  | [], _ => []
  | x :: xs, a => if x = a then xs else x :: removeFirst xs a

/-- The `closest` local of `GridManager.build` (line 91): the level minimizing
`abs(x - round(last_close, 4))`, first minimal element on ties. -/
def closestLevel (cfg : Config) (lastClose : ℚ) : Option ℚ :=
  pyMinBy (fun x => |x - round4 lastClose|) (gridLevels cfg)

/-- `GridManager.build` (logic.py lines 85-96): remove the closest level, then
partition the rest into strict-below and strict-above; `none` when the level
list is empty (Python raises). -/
def build (cfg : Config) (lastClose : ℚ) : Option (List ℚ × List ℚ) :=
  match closestLevel cfg lastClose with
  | none => none
  | some c =>
      let rest := removeFirst (gridLevels cfg) c
      some (rest.filter (fun p => decide (p < c)),
            rest.filter (fun p => decide (c < p)))

/-- Result of one `on_fill` invocation: the updated `active_orders`, the
exchange order attempts made, and the log entries pushed to the queue. -/
structure FillOut where
  orders : OrderBook
  placed : List (ℚ × String)
  logs : List String
deriving DecidableEq

/-- Lines 158-172 of `on_fill`, after a tracked side was popped at the rounded
price key `P`: compute the opposite-side replacement one `bin_step` away and
place it only when it lies within `[min_price, max_price]`; placement threads
the already-erased order book. -/
def fillReplace (cfg : Config) (env : Env) (orders : OrderBook) (P : ℚ)
    (side : String) : FillOut :=
  let orders1 := obErase orders P
  let newPrice := if side = "buy" then P + cfg.bin_step else P - cfg.bin_step
  let newSide := if side = "buy" then "sell" else "buy"
  if cfg.min_price ≤ newPrice ∧ newPrice ≤ cfg.max_price then
    ⟨(place_order env cfg newPrice newSide orders1).orders,
      [(newPrice, newSide)], ["Fill detected", "Processing fill", "Placing order"]⟩
  else
    ⟨orders1, [],
      ["Fill detected", "Processing fill", "Price out of range - order skipped"]⟩

/-- The body of `RunningBot.on_fill` (logic.py lines 146-172), i.e. the code
inside its `try`; `Except.error` would model an uncaught exception escaping the
body. Mirrors: ignore other markets and non-FILL events; pop the rounded price
key (Python's falsy test also stops on an empty-string side, after the pop);
otherwise run the replacement logic `fillReplace`. -/
def onFillBody (cfg : Config) (env : Env) (orders : OrderBook) (trade : Trade) :
    Except String FillOut :=
  if trade.coin ≠ cfg.token ∨ trade.trade_type ≠ "FILL" then
    .ok ⟨orders, [], []⟩
  else
    match obLookup orders (round4 trade.price) with
    | none => .ok ⟨orders, [], ["Fill detected", "No active order found"]⟩
    | some side =>
        if side = "" then
          .ok ⟨obErase orders (round4 trade.price), [],
            ["Fill detected", "No active order found"]⟩
        else
          .ok (fillReplace cfg env orders (round4 trade.price) side)

/-- `RunningBot.on_fill` (logic.py lines 145-174): the body wrapped in the
outer `try`/`except` that logs any fill-processing error and returns. -/
def on_fill (cfg : Config) (env : Env) (orders : OrderBook) (trade : Trade) :
    FillOut :=
  match onFillBody cfg env orders trade with
  | .ok r => r
  | .error e => ⟨orders, [], ["Fill processing error: " ++ e]⟩

/-- The mutable state of one `RunningBot` instance: its config, the
`active_orders` dict, the `running` flag, whether a monitor subscription is
open, and the `log_queue` contents. -/
structure Bot where
  cfg : Config
  orders : OrderBook
  running : Bool
  monitorOn : Bool
  logs : List String
deriving DecidableEq

/-- `RunningBot.__init__`: fresh instance, empty order book, not running. -/
def mkBot (cfg : Config) : Bot := ⟨cfg, [], false, false, []⟩

/-- Insertion into a sorted list, for modelling Python's `sorted`. -/
def insertSorted (x : ℚ) : List ℚ → List ℚ
  | [] => [x]
  | y :: ys => if x ≤ y then x :: y :: ys else y :: insertSorted x ys

/-- Python's `sorted` on rationals (ascending insertion sort). -/
def sortQ (l : List ℚ) : List ℚ := l.foldr insertSorted []

/-- The placement loops of `RunningBot.start` (lines 129-132): one
`place_order` per level, threading `active_orders`, recording every attempt. -/
def placeMany (env : Env) (cfg : Config) (side : String) (ps : List ℚ)
    (orders : OrderBook) : OrderBook × List (ℚ × String) :=
  ps.foldl
    (fun acc p => ((place_order env cfg p side acc.1).orders,
      acc.2 ++ [(p, side)]))
    (orders, [])

/-- Result of `RunningBot.start`: the updated bot, the returned boolean, the
exchange order attempts, and whether `cancel_all` was invoked. -/
structure StartOut where
  bot : Bot
  ok : Bool
  placedCalls : List (ℚ × String)
  cancelCalled : Bool
deriving DecidableEq

/-- `RunningBot.start` (logic.py lines 112-143). An already-running instance
logs and returns False without touching anything. Otherwise the `try` block
runs `cancel_all`, fetches the last close price, builds the grid and places
one order per level (buys ascending then sells ascending); any exception in
those steps is caught, logged, and start returns False with `running` still
False. All raising steps precede any placement, so the caught paths leave
`active_orders` untouched. -/
def start (bot : Bot) (env : Env) : StartOut :=
  if bot.running then
    ⟨{ bot with logs := bot.logs ++ ["Bot is already running"] },
      false, [], false⟩
  else
    match env.cancelAllResult with
    | .error e =>
        ⟨{ bot with logs := bot.logs ++
            ["Cancelling existing orders...", "Error starting bot: " ++ e] },
          false, [], true⟩
    | .ok _ =>
        match env.lastCloseResult with
        | .error e =>
            ⟨{ bot with logs := bot.logs ++
                ["Cancelling existing orders...",
                 "Error starting bot: " ++ e] },
              false, [], true⟩
        | .ok lastClose =>
            match build bot.cfg lastClose with
            | none =>
                ⟨{ bot with logs := bot.logs ++
                    ["Cancelling existing orders...",
                     "Error starting bot: min() arg is an empty sequence"] },
                  false, [], true⟩
            | some (buys, sells) =>
                let r1 := placeMany env bot.cfg "buy" (sortQ buys) bot.orders
                let r2 := placeMany env bot.cfg "sell" (sortQ sells) r1.1
                ⟨{ bot with
                    orders := r2.1
                    running := true
                    monitorOn := true
                    logs := bot.logs ++
                      ["Cancelling existing orders...", "Last close price",
                       "Bot started successfully"] },
                  true, r1.2 ++ r2.2, true⟩

/-- `RunningBot.stop` (logic.py lines 176-187): no-op when not running; else
log, call `monitor.stop()` when a monitor exists, join the thread, run
`cancel_all`, and only then clear the `running` flag. `stop` has no
`try`/`except`, so a raise from `monitor.stop()` (or from `cancel_all`, whose
`user_state` and `Cloid.from_str` calls sit outside its inner per-order `try`)
propagates with the mutations made so far kept: `running` stays `true`.
`active_orders` is never touched on any path. -/
def stop (bot : Bot) (env : Env) : Bot :=
  if bot.running then
    if bot.monitorOn then
      match env.monitorStopResult with
      | .error _ => { bot with logs := bot.logs ++ ["Stopping bot..."] }
      | .ok _ =>
          match env.cancelAllResult with
          | .error _ =>
              { bot with
                  monitorOn := false
                  logs := bot.logs ++ ["Stopping bot..."] }
          | .ok _ =>
              { bot with
                  running := false
                  monitorOn := false
                  logs := bot.logs ++ ["Stopping bot...", "Bot stopped"] }
    else
      match env.cancelAllResult with
      | .error _ => { bot with logs := bot.logs ++ ["Stopping bot..."] }
      | .ok _ =>
          { bot with
              running := false
              logs := bot.logs ++ ["Stopping bot...", "Bot stopped"] }
  else bot

/-- The global `running_bots` dict of `logic.py`. -/
abbrev Registry := List (String × Bot)

/-- Dict assignment on the registry. -/
def regInsert (reg : Registry) (bid : String) (bot : Bot) : Registry :=
  match reg with
  | [] => [(bid, bot)]
  | e :: es => if e.1 = bid then (bid, bot) :: es else e :: regInsert es bid bot

/-- Dict lookup on the registry. -/
def regLookup (reg : Registry) (bid : String) : Option Bot :=
  match reg with
  | [] => none
  | e :: es => if e.1 = bid then some e.2 else regLookup es bid

/-- `start_bot` (logic.py lines 192-219): always builds a fresh `RunningBot`
from the config (the registry is never consulted), starts it, and registers it
under the identifier only on success. Returns the success boolean. -/
def start_bot (reg : Registry) (bid : String) (cfg : Config) (env : Env) :
    Registry × Bool :=
  let r := start (mkBot cfg) env
  if r.ok then (regInsert reg bid r.bot, true) else (reg, false)

/-- The sequence named by claim C1, following the spec words: the
4-decimal-rounded arithmetic sequence from `min_price` to `max_price`
inclusive, stepping by `bin_step` (for comparison with the code's
`gridLevels`). -/
def claimedSeq (cfg : Config) : List ℚ :=
  (List.range
      ((Int.floor ((cfg.max_price - cfg.min_price) / cfg.bin_step)).toNat + 1)).map
    (fun k : ℕ => round4 (cfg.min_price + (k : ℚ) * cfg.bin_step))

/-- Well-formedness invariant of the order book (claim C10): every key is a
4-decimal value and every side is one of the two lowercase strings. -/
def obWellFormed (ob : OrderBook) : Prop :=
  ∀ e ∈ ob, round4 e.1 = e.1 ∧ (e.2 = "buy" ∨ e.2 = "sell")

/-- An environment where every collaborator call succeeds; the last close
price is 1.05. -/
def envOk : Env := ⟨.ok (), .ok (21/20), fun _ _ => .ok true, .ok ()⟩

/-- An environment where fetching the reference price raises. -/
def envNoPrice : Env :=
  ⟨.ok (), .error "PriceUnavailable", fun _ _ => .ok true, .ok ()⟩

/-- The scenario config of the spec: min 1.00, max 1.10, step 0.02. -/
def cfgA : Config := ⟨"TOK", 1, 11/10, 1/50, 1⟩

/-- Config exhibiting the arange overshoot: min 1, max 1.016, step 0.01. -/
def cfgOver : Config := ⟨"TOK", 1, 127/125, 1/100, 1⟩

/-- Config with a bin step below one rounding tick: 0.00001. -/
def cfgTiny : Config := ⟨"TOK", 1/2, 2, 1/100000, 1⟩

/-- Config for the lower-bound replacement counterexample. -/
def cfgLow : Config := ⟨"TOK", 1, 2, 1/10, 1⟩

/-- A bot instance registered as running under identifier b. -/
def runningBotA : Bot := ⟨cfgA, [(1, "buy")], true, true, []⟩

/-- A registry already holding a running bot under identifier b. -/
def regA : Registry := [("b", runningBotA)]

/-! Helper lemmas about rounding. -/

theorem roundHalfEven_intCast (n : ℤ) : roundHalfEven (n : ℚ) = n := by
  unfold roundHalfEven
  rw [Int.floor_intCast]
  norm_num

theorem roundHalfEven_ge_floor (q : ℚ) : Int.floor q ≤ roundHalfEven q := by
  unfold roundHalfEven
  split_ifs <;> omega

theorem roundHalfEven_big (n : ℤ) (q : ℚ) (h : (n : ℚ) + 1 ≤ q) :
    n + 1 ≤ roundHalfEven q := by
  have h1 : n + 1 ≤ Int.floor q := Int.le_floor.mpr (by push_cast; linarith)
  have h2 := roundHalfEven_ge_floor q
  omega

theorem roundHalfEven_small (n : ℤ) (q : ℚ) (h : q ≤ (n : ℚ) - 1) :
    roundHalfEven q ≤ n - 1 := by
  have hfq : (Int.floor q : ℚ) ≤ q := Int.floor_le q
  have hf : Int.floor q ≤ n - 1 := by
    have : (Int.floor q : ℚ) ≤ ((n - 1 : ℤ) : ℚ) := by push_cast; linarith
    exact_mod_cast this
  unfold roundHalfEven
  split_ifs with h1 h2 h3
  · exact hf
  · have hq2 : (Int.floor q : ℚ) < ((n - 1 : ℤ) : ℚ) := by push_cast; linarith
    have : Int.floor q < n - 1 := by exact_mod_cast hq2
    omega
  · exact hf
  · have heq : q - (Int.floor q : ℚ) = 1/2 := le_antisymm (not_lt.mp h2) (not_lt.mp h1)
    have hq2 : (Int.floor q : ℚ) < ((n - 1 : ℤ) : ℚ) := by push_cast; linarith
    have : Int.floor q < n - 1 := by exact_mod_cast hq2
    omega

theorem round4_intDiv (n : ℤ) : round4 ((n : ℚ) / 10000) = (n : ℚ) / 10000 := by
  unfold round4
  have h : ((n : ℚ) / 10000) * 10000 = (n : ℚ) := by ring
  rw [h, roundHalfEven_intCast]

theorem round4_idem (q : ℚ) : round4 (round4 q) = round4 q :=
  round4_intDiv (roundHalfEven (q * 10000))

theorem round4_add_gt (n : ℤ) (s : ℚ) (hs : 1/10000 ≤ s) :
    (n : ℚ) / 10000 < round4 ((n : ℚ) / 10000 + s) := by
  unfold round4
  have harg : ((n : ℚ) / 10000 + s) * 10000 = (n : ℚ) + s * 10000 := by ring
  rw [harg]
  have h1 : (n : ℚ) + 1 ≤ (n : ℚ) + s * 10000 := by linarith
  have h2 : n + 1 ≤ roundHalfEven ((n : ℚ) + s * 10000) := roundHalfEven_big n _ h1
  have h3 : (n : ℚ) + 1 ≤ (roundHalfEven ((n : ℚ) + s * 10000) : ℚ) := by
    exact_mod_cast h2
  have h4 : (n : ℚ) < (roundHalfEven ((n : ℚ) + s * 10000) : ℚ) := by linarith
  have h5 := mul_lt_mul_of_pos_right h4 (by norm_num : (0 : ℚ) < (10000 : ℚ)⁻¹)
  rw [div_eq_mul_inv, div_eq_mul_inv]
  exact h5

theorem round4_sub_lt (n : ℤ) (s : ℚ) (hs : 1/10000 ≤ s) :
    round4 ((n : ℚ) / 10000 - s) < (n : ℚ) / 10000 := by
  unfold round4
  have harg : ((n : ℚ) / 10000 - s) * 10000 = (n : ℚ) - s * 10000 := by ring
  rw [harg]
  have h1 : (n : ℚ) - s * 10000 ≤ (n : ℚ) - 1 := by linarith
  have h2 : roundHalfEven ((n : ℚ) - s * 10000) ≤ n - 1 := roundHalfEven_small n _ h1
  have h3 : (roundHalfEven ((n : ℚ) - s * 10000) : ℚ) ≤ (n : ℚ) - 1 := by
    exact_mod_cast h2
  have h4 : (roundHalfEven ((n : ℚ) - s * 10000) : ℚ) < (n : ℚ) := by linarith
  have h5 := mul_lt_mul_of_pos_right h4 (by norm_num : (0 : ℚ) < (10000 : ℚ)⁻¹)
  rw [div_eq_mul_inv, div_eq_mul_inv]
  exact h5

/-! Helper lemmas about the first-minimum fold of Python's `min`. -/

theorem pickMin_key_le_left (f : ℚ → ℚ) (x z : ℚ) : f (pickMin f x z) ≤ f x := by
  unfold pickMin
  split_ifs with h
  · exact le_of_lt h
  · exact le_refl _

theorem pickMin_key_le_right (f : ℚ → ℚ) (x z : ℚ) : f (pickMin f x z) ≤ f z := by
  unfold pickMin
  split_ifs with h
  · exact le_refl _
  · exact not_lt.mp h

theorem foldl_pickMin_key_le (f : ℚ → ℚ) :
    ∀ (xs : List ℚ) (x : ℚ), f (xs.foldl (pickMin f) x) ≤ f x
  | [], _ => le_refl _
  | z :: zs, x => by
      simp only [List.foldl_cons]
      exact le_trans (foldl_pickMin_key_le f zs (pickMin f x z))
        (pickMin_key_le_left f x z)

theorem foldl_pickMin_mem (f : ℚ → ℚ) :
    ∀ (xs : List ℚ) (x : ℚ), xs.foldl (pickMin f) x ∈ x :: xs
  | [], x => by simp
  | z :: zs, x => by
      simp only [List.foldl_cons]
      have h := foldl_pickMin_mem f zs (pickMin f x z)
      rcases List.mem_cons.mp h with h1 | h1
      · rw [h1]
        unfold pickMin
        split_ifs <;> simp
      · simp [h1]

theorem foldl_pickMin_le (f : ℚ → ℚ) :
    ∀ (xs : List ℚ) (x y : ℚ), y ∈ x :: xs → f (xs.foldl (pickMin f) x) ≤ f y
  | [], x, y, hy => by
      have h : y = x := by simpa using hy
      subst h
      exact le_refl _
  | z :: zs, x, y, hy => by
      simp only [List.foldl_cons]
      rcases List.mem_cons.mp hy with h1 | h1
      · subst h1
        exact le_trans (foldl_pickMin_key_le f zs (pickMin f y z))
          (pickMin_key_le_left f y z)
      · rcases List.mem_cons.mp h1 with h2 | h2
        · subst h2
          exact le_trans (foldl_pickMin_key_le f zs (pickMin f x y))
            (pickMin_key_le_right f x y)
        · exact foldl_pickMin_le f zs (pickMin f x z) y (List.mem_cons_of_mem _ h2)

theorem foldl_pickMin_first (f : ℚ → ℚ) :
    ∀ (xs : List ℚ) (x : ℚ), ∃ p s, x :: xs = p ++ (xs.foldl (pickMin f) x) :: s ∧
      ∀ y ∈ p, f (xs.foldl (pickMin f) x) < f y
  | [], x => ⟨[], [], rfl, by simp⟩
  | z :: zs, x => by
      obtain ⟨p', s', heq, hlt⟩ := foldl_pickMin_first f zs (pickMin f x z)
      simp only [List.foldl_cons]
      have hkey : f (zs.foldl (pickMin f) (pickMin f x z)) ≤ f (pickMin f x z) :=
        foldl_pickMin_key_le f zs (pickMin f x z)
      by_cases hzx : f z < f x
      · have ha : pickMin f x z = z := if_pos hzx
        rw [ha] at heq hlt hkey ⊢
        cases p' with
        | nil =>
            simp only [List.nil_append] at heq
            have h1 : z = zs.foldl (pickMin f) z := (List.cons.inj heq).1
            have h2 : zs = s' := (List.cons.inj heq).2
            refine ⟨[x], zs, ?_, ?_⟩
            · rw [← h1, h2]
              simp
            · intro y hy
              have hyx : y = x := by simpa using hy
              subst hyx
              rw [← h1]
              exact hzx
        | cons q p'' =>
            simp only [List.cons_append] at heq
            have hq : q = z := ((List.cons.inj heq).1).symm
            have hzs : zs = p'' ++ zs.foldl (pickMin f) z :: s' :=
              (List.cons.inj heq).2
            refine ⟨x :: z :: p'', s', ?_, ?_⟩
            · rw [List.cons_append, List.cons_append, ← hzs]
            · intro y hy
              rcases List.mem_cons.mp hy with h2 | h2
              · subst h2
                exact lt_of_le_of_lt hkey hzx
              · rcases List.mem_cons.mp h2 with h3 | h3
                · subst h3
                  have hqmem : y ∈ q :: p'' := by
                    rw [hq]
                    exact List.mem_cons_self _ _
                  exact hlt _ hqmem
                · exact hlt _ (List.mem_cons_of_mem _ h3)
      · have ha : pickMin f x z = x := if_neg hzx
        have hxz : f x ≤ f z := not_lt.mp hzx
        rw [ha] at heq hlt hkey ⊢
        cases p' with
        | nil =>
            simp only [List.nil_append] at heq
            have h1 : x = zs.foldl (pickMin f) x := (List.cons.inj heq).1
            refine ⟨[], z :: zs, ?_, ?_⟩
            · rw [← h1]
              simp
            · intro y hy
              simp at hy
        | cons q p'' =>
            simp only [List.cons_append] at heq
            have hq : q = x := ((List.cons.inj heq).1).symm
            have hzs : zs = p'' ++ zs.foldl (pickMin f) x :: s' :=
              (List.cons.inj heq).2
            have hqmem : x ∈ q :: p'' := by
              rw [hq]
              exact List.mem_cons_self _ _
            have hmx : f (zs.foldl (pickMin f) x) < f x := hlt _ hqmem
            refine ⟨x :: z :: p'', s', ?_, ?_⟩
            · rw [List.cons_append, List.cons_append, ← hzs]
            · intro y hy
              rcases List.mem_cons.mp hy with h2 | h2
              · subst h2
                exact hmx
              · rcases List.mem_cons.mp h2 with h3 | h3
                · subst h3
                  exact lt_of_lt_of_le hmx hxz
                · exact hlt _ (List.mem_cons_of_mem _ h3)

/-! Helper lemmas about `removeFirst`. -/

theorem removeFirst_subset : ∀ (l : List ℚ) (a x : ℚ), x ∈ removeFirst l a → x ∈ l
  | [], _, _, h => by simp [removeFirst] at h
  | y :: ys, a, x, h => by
      unfold removeFirst at h
      split_ifs at h with hy
      · exact List.mem_cons_of_mem y h
      · rcases List.mem_cons.mp h with h1 | h1
        · exact h1 ▸ List.mem_cons_self _ _
        · exact List.mem_cons_of_mem _ (removeFirst_subset ys a x h1)

theorem mem_removeFirst_of_ne :
    ∀ (l : List ℚ) (a x : ℚ), x ≠ a → x ∈ l → x ∈ removeFirst l a
  | [], _, _, _, hx => by simp at hx
  | y :: ys, a, x, hne, hx => by
      unfold removeFirst
      split_ifs with hy
      · rcases List.mem_cons.mp hx with h1 | h1
        · exact absurd (h1.trans hy) hne
        · exact h1
      · rcases List.mem_cons.mp hx with h1 | h1
        · exact h1 ▸ List.mem_cons_self _ _
        · exact List.mem_cons_of_mem _ (mem_removeFirst_of_ne ys a x hne h1)

/-! Helper lemmas about the order book operations. -/

theorem obLookup_obErase (ob : OrderBook) (k k' : ℚ) :
    obLookup (obErase ob k) k' = if k' = k then none else obLookup ob k' := by
  induction ob with
  | nil => simp [obErase, obLookup]
  | cons e es ih =>
      by_cases h1 : e.1 = k
      · have : obErase (e :: es) k = obErase es k := by
          simp [obErase, List.filter_cons, h1]
        rw [this, ih]
        by_cases h2 : k' = k
        · simp [h2]
        · have h3 : ¬ e.1 = k' := by rw [h1]; exact fun h => h2 h.symm
          simp [h2, obLookup, h3]
      · have : obErase (e :: es) k = e :: obErase es k := by
          simp [obErase, List.filter_cons, h1]
        rw [this]
        by_cases h2 : e.1 = k'
        · have h3 : ¬ k' = k := by rw [← h2]; exact fun h => h1 h
          simp [obLookup, h2, h3]
        · simp only [obLookup, h2, if_false, ih]

theorem obLookup_obInsert (ob : OrderBook) (k k' : ℚ) (v : String) :
    obLookup (obInsert ob k v) k' = if k' = k then some v else obLookup ob k' := by
  induction ob with
  | nil =>
      by_cases h : k = k'
      · simp [obInsert, obLookup, h]
      · have h2 : ¬ k' = k := fun hh => h hh.symm
        simp [obInsert, obLookup, h, h2]
  | cons e es ih =>
      by_cases h1 : e.1 = k
      · have : obInsert (e :: es) k v = (k, v) :: es := by
          simp [obInsert, h1]
        rw [this]
        by_cases h2 : k' = k
        · simp [obLookup, h2]
        · have h3 : ¬ k = k' := fun hh => h2 hh.symm
          have h4 : ¬ e.1 = k' := by rw [h1]; exact h3
          simp [obLookup, h3, h2, h4, h1]
      · have : obInsert (e :: es) k v = e :: obInsert es k v := by
          simp [obInsert, h1]
        rw [this]
        by_cases h2 : e.1 = k'
        · have h3 : ¬ k' = k := by rw [← h2]; exact fun hh => h1 hh
          simp [obLookup, h2, h3]
        · simp only [obLookup, h2, if_false, ih]

theorem mem_obInsert :
    ∀ (ob : OrderBook) (k : ℚ) (v : String) (e : ℚ × String),
      e ∈ obInsert ob k v → e = (k, v) ∨ e ∈ ob
  | [], k, v, e, h => by
      simp [obInsert] at h
      exact Or.inl h
  | e0 :: es, k, v, e, h => by
      unfold obInsert at h
      split_ifs at h with h1
      · rcases List.mem_cons.mp h with h2 | h2
        · exact Or.inl h2
        · exact Or.inr (List.mem_cons_of_mem _ h2)
      · rcases List.mem_cons.mp h with h2 | h2
        · exact Or.inr (h2 ▸ List.mem_cons_self _ _)
        · rcases mem_obInsert es k v e h2 with h3 | h3
          · exact Or.inl h3
          · exact Or.inr (List.mem_cons_of_mem _ h3)

theorem obWellFormed_obErase (ob : OrderBook) (k : ℚ) (h : obWellFormed ob) :
    obWellFormed (obErase ob k) :=
  fun e he => h e (List.mem_of_mem_filter he)

theorem obWellFormed_obInsert (ob : OrderBook) (k : ℚ) (v : String)
    (h : obWellFormed ob) (hk : round4 k = k) (hv : v = "buy" ∨ v = "sell") :
    obWellFormed (obInsert ob k v) := by
  intro e he
  rcases mem_obInsert ob k v e he with h1 | h1
  · subst h1
    exact ⟨hk, hv⟩
  · exact h e h1

theorem obLookup_obInsert_isSome (ob : OrderBook) (k k' : ℚ) (v : String)
    (h : (obLookup ob k').isSome = true) :
    (obLookup (obInsert ob k v) k').isSome = true := by
  rw [obLookup_obInsert]
  split_ifs with h1
  · rfl
  · exact h

/-! Helper lemmas about `place_order` and `on_fill`. -/

theorem toLower_sell : "sell".toLower = "sell" := by with_unfolding_all decide

theorem toLower_buy : "buy".toLower = "buy" := by with_unfolding_all decide

theorem place_order_eq (env : Env) (cfg : Config) (p : ℚ) (s : String)
    (ob : OrderBook) :
    place_order env cfg p s ob =
      if placeSucceeds env p s = true then ⟨obInsert ob (round4 p) s.toLower, true⟩
      else ⟨ob, false⟩ := by
  unfold place_order placeSucceeds
  cases h : env.orderResp p s with
  | ok b => cases b <;> simp
  | error e => simp

theorem place_order_isSome (env : Env) (cfg : Config) (p : ℚ) (s : String)
    (ob : OrderBook) (k : ℚ) (h : (obLookup ob k).isSome = true) :
    (obLookup (place_order env cfg p s ob).orders k).isSome = true := by
  rw [place_order_eq]
  split_ifs with h1
  · exact obLookup_obInsert_isSome ob (round4 p) k s.toLower h
  · exact h

theorem on_fill_of_body {cfg : Config} {env : Env} {ob : OrderBook} {t : Trade}
    {r : FillOut} (h : onFillBody cfg env ob t = Except.ok r) :
    on_fill cfg env ob t = r := by
  unfold on_fill
  rw [h]

theorem onFillBody_ignored (cfg : Config) (env : Env) (ob : OrderBook)
    (t : Trade) (h : t.coin ≠ cfg.token ∨ t.trade_type ≠ "FILL") :
    onFillBody cfg env ob t = Except.ok ⟨ob, [], []⟩ := by
  unfold onFillBody
  rw [if_pos h]

theorem onFillBody_untracked (cfg : Config) (env : Env) (ob : OrderBook)
    (t : Trade) (hc : t.coin = cfg.token) (ht : t.trade_type = "FILL")
    (hl : obLookup ob (round4 t.price) = none) :
    onFillBody cfg env ob t =
      Except.ok ⟨ob, [], ["Fill detected", "No active order found"]⟩ := by
  unfold onFillBody
  rw [if_neg (by simp [hc, ht])]
  rw [hl]

theorem onFillBody_emptyside (cfg : Config) (env : Env) (ob : OrderBook)
    (t : Trade) (hc : t.coin = cfg.token) (ht : t.trade_type = "FILL")
    (hl : obLookup ob (round4 t.price) = some "") :
    onFillBody cfg env ob t =
      Except.ok ⟨obErase ob (round4 t.price), [],
        ["Fill detected", "No active order found"]⟩ := by
  unfold onFillBody
  rw [if_neg (by simp [hc, ht])]
  rw [hl]
  dsimp only
  rw [if_pos rfl]

theorem onFillBody_tracked (cfg : Config) (env : Env) (ob : OrderBook)
    (t : Trade) (side : String) (hc : t.coin = cfg.token)
    (ht : t.trade_type = "FILL")
    (hl : obLookup ob (round4 t.price) = some side) (hs : side ≠ "") :
    onFillBody cfg env ob t =
      Except.ok (fillReplace cfg env ob (round4 t.price) side) := by
  unfold onFillBody
  rw [if_neg (by simp [hc, ht])]
  rw [hl]
  dsimp only
  rw [if_neg hs]

theorem onFillBody_isOk (cfg : Config) (env : Env) (ob : OrderBook) (t : Trade) :
    ∃ r, onFillBody cfg env ob t = Except.ok r := by
  unfold onFillBody
  repeat' split
  all_goals exact ⟨_, rfl⟩

theorem fillReplace_orders_buy (cfg : Config) (env : Env) (ob : OrderBook)
    (P : ℚ) :
    (fillReplace cfg env ob P "buy").orders =
      (if cfg.min_price ≤ P + cfg.bin_step ∧ P + cfg.bin_step ≤ cfg.max_price
       then
         (if placeSucceeds env (P + cfg.bin_step) "sell" = true then
           obInsert (obErase ob P) (round4 (P + cfg.bin_step)) "sell"
         else obErase ob P)
       else obErase ob P) := by
  unfold fillReplace
  simp only [reduceIte]
  rw [place_order_eq]
  split_ifs <;> simp [toLower_sell]

theorem fillReplace_orders_notbuy (cfg : Config) (env : Env) (ob : OrderBook)
    (P : ℚ) (side : String) (hs : side ≠ "buy") :
    (fillReplace cfg env ob P side).orders =
      (if cfg.min_price ≤ P - cfg.bin_step ∧ P - cfg.bin_step ≤ cfg.max_price
       then
         (if placeSucceeds env (P - cfg.bin_step) "buy" = true then
           obInsert (obErase ob P) (round4 (P - cfg.bin_step)) "buy"
         else obErase ob P)
       else obErase ob P) := by
  unfold fillReplace
  simp only [if_neg hs]
  rw [place_order_eq]
  split_ifs <;> simp [toLower_buy]

/-! Helper lemmas about `placeMany`, the registry and the grid levels. -/

theorem foldl_place_isSome (env : Env) (cfg : Config) (side : String) (k : ℚ) :
    ∀ (ps : List ℚ) (init : OrderBook × List (ℚ × String)),
      (obLookup init.1 k).isSome = true →
      (obLookup (ps.foldl
        (fun acc p => ((place_order env cfg p side acc.1).orders,
          acc.2 ++ [(p, side)])) init).1 k).isSome = true
  | [], init, h => h
  | p :: ps, init, h => by
      simp only [List.foldl_cons]
      exact foldl_place_isSome env cfg side k ps _
        (place_order_isSome env cfg p side init.1 k h)

theorem placeMany_isSome (env : Env) (cfg : Config) (side : String)
    (ps : List ℚ) (ob : OrderBook) (k : ℚ)
    (h : (obLookup ob k).isSome = true) :
    (obLookup (placeMany env cfg side ps ob).1 k).isSome = true :=
  foldl_place_isSome env cfg side k ps (ob, []) h

theorem mem_keys_regInsert :
    ∀ (reg : Registry) (bid : String) (b : Bot) (x : String),
      x ∈ (regInsert reg bid b).map Prod.fst → x = bid ∨ x ∈ reg.map Prod.fst
  | [], bid, b, x, h => by
      simp [regInsert] at h
      exact Or.inl h
  | e :: es, bid, b, x, h => by
      unfold regInsert at h
      split_ifs at h with h1
      · rcases List.mem_cons.mp h with h2 | h2
        · exact Or.inl h2
        · exact Or.inr (List.mem_cons_of_mem _ h2)
      · rcases List.mem_cons.mp h with h2 | h2
        · exact Or.inr (h2 ▸ List.mem_cons_self _ _)
        · rcases mem_keys_regInsert es bid b x h2 with h3 | h3
          · exact Or.inl h3
          · exact Or.inr (List.mem_cons_of_mem _ h3)

theorem regInsert_nodup :
    ∀ (reg : Registry) (bid : String) (b : Bot),
      (reg.map Prod.fst).Nodup → ((regInsert reg bid b).map Prod.fst).Nodup
  | [], bid, b, _ => by simp [regInsert]
  | e :: es, bid, b, h => by
      unfold regInsert
      split_ifs with h1
      · simpa [← h1] using h
      · simp only [List.map_cons, List.nodup_cons] at h ⊢
        refine ⟨?_, regInsert_nodup es bid b h.2⟩
        intro hcon
        rcases mem_keys_regInsert es bid b e.1 hcon with h2 | h2
        · exact h1 h2
        · exact h.1 h2

theorem gridLevels_ne_nil (cfg : Config) (h1 : cfg.min_price < cfg.max_price)
    (h2 : 0 < cfg.bin_step) : gridLevels cfg ≠ [] := by
  intro hcon
  simp only [gridLevels, List.map_eq_nil_iff, List.range_eq_nil] at hcon
  have hlen : arangeLen cfg.min_price (cfg.max_price + cfg.bin_step / 2)
      cfg.bin_step = 0 := hcon
  unfold arangeLen at hlen
  have hpos : 0 < (cfg.max_price + cfg.bin_step / 2 - cfg.min_price) /
      cfg.bin_step := by
    apply div_pos
    · linarith
    · exact h2
  have hceil : 0 < Int.ceil ((cfg.max_price + cfg.bin_step / 2 -
      cfg.min_price) / cfg.bin_step) := Int.ceil_pos.mpr hpos
  omega

theorem closestLevel_eq_foldl (cfg : Config) (lc : ℚ) (x : ℚ) (xs : List ℚ)
    (hx : gridLevels cfg = x :: xs) :
    closestLevel cfg lc =
      some (xs.foldl (pickMin (fun y => |y - round4 lc|)) x) := by
  unfold closestLevel
  rw [hx]
  rfl

/-! Claim theorems. -/

/-- C8: for every fill event and every behaviour of the external collaborators
(including an exchange call that raises), the fill handler body never produces
an uncaught exception: `onFillBody` always returns `ok`, and `on_fill` returns
exactly that result, so no exception propagates to the feed-consumer. -/
theorem onFill_no_uncaught_exception (cfg : Config) (env : Env) (ob : OrderBook)
    (t : Trade) :
    ∃ r, onFillBody cfg env ob t = Except.ok r ∧ on_fill cfg env ob t = r := by
  obtain ⟨r, hr⟩ := onFillBody_isOk cfg env ob t
  exact ⟨r, hr, on_fill_of_body hr⟩

/-- C7: a fill whose market differs from the configured token, or which is not
a terminal FILL event, or whose rounded price is not a tracked level, leaves
the order book unchanged and attempts no order placement. -/
theorem onFill_untracked_frame (cfg : Config) (env : Env) (ob : OrderBook)
    (t : Trade)
    (h : t.coin ≠ cfg.token ∨ t.trade_type ≠ "FILL" ∨
      obLookup ob (round4 t.price) = none) :
    (on_fill cfg env ob t).orders = ob ∧ (on_fill cfg env ob t).placed = [] := by
  by_cases hm : t.coin ≠ cfg.token ∨ t.trade_type ≠ "FILL"
  · rw [on_fill_of_body (onFillBody_ignored cfg env ob t hm)]
    exact ⟨rfl, rfl⟩
  · push_neg at hm
    rcases h with h1 | h1 | h1
    · exact absurd h1 (by simpa using hm.1)
    · exact absurd h1 (by simpa using hm.2)
    · rw [on_fill_of_body (onFillBody_untracked cfg env ob t hm.1 hm.2 h1)]
      exact ⟨rfl, rfl⟩

/-- Witness for C7 at a concrete foreign-market fill. -/
theorem onFill_untracked_frame_witness :
    (on_fill cfgA envOk [((1 : ℚ), "buy")] ⟨"OTHER", 1, "FILL"⟩).orders =
      [((1 : ℚ), "buy")] ∧
    (on_fill cfgA envOk [((1 : ℚ), "buy")] ⟨"OTHER", 1, "FILL"⟩).placed = [] :=
  onFill_untracked_frame cfgA envOk [((1 : ℚ), "buy")] ⟨"OTHER", 1, "FILL"⟩
    (Or.inl (by with_unfolding_all decide))

/-- C2 (amended): processing a terminal fill of a tracked buy at rounded level
P removes P and inserts a sell at round4(P + bin_step) if and only if the
unrounded replacement lies in [min_price, max_price] AND the exchange accepts
the order; otherwise the book is exactly the erasure of P. Symmetric for a
tracked sell with replacement P - bin_step. -/
theorem onFill_replacement (cfg : Config) (env : Env) (ob : OrderBook)
    (t : Trade) (P : ℚ) (hc : t.coin = cfg.token) (ht : t.trade_type = "FILL")
    (hP : round4 t.price = P) :
    (obLookup ob P = some "buy" →
      (on_fill cfg env ob t).orders =
        (if cfg.min_price ≤ P + cfg.bin_step ∧ P + cfg.bin_step ≤ cfg.max_price
         then
           (if placeSucceeds env (P + cfg.bin_step) "sell" = true then
             obInsert (obErase ob P) (round4 (P + cfg.bin_step)) "sell"
           else obErase ob P)
         else obErase ob P)) ∧
    (obLookup ob P = some "sell" →
      (on_fill cfg env ob t).orders =
        (if cfg.min_price ≤ P - cfg.bin_step ∧ P - cfg.bin_step ≤ cfg.max_price
         then
           (if placeSucceeds env (P - cfg.bin_step) "buy" = true then
             obInsert (obErase ob P) (round4 (P - cfg.bin_step)) "buy"
           else obErase ob P)
         else obErase ob P)) := by
  subst hP
  constructor
  · intro hl
    rw [on_fill_of_body
      (onFillBody_tracked cfg env ob t "buy" hc ht hl (by decide))]
    exact fillReplace_orders_buy cfg env ob _
  · intro hl
    rw [on_fill_of_body
      (onFillBody_tracked cfg env ob t "sell" hc ht hl (by decide))]
    exact fillReplace_orders_notbuy cfg env ob _ "sell" (by decide)

/-- Witness for C2: a tracked buy at 1.00 filled with step 0.02 yields a sell
resting at 1.02. -/
theorem onFill_replacement_witness :
    obLookup (on_fill cfgA envOk [((1 : ℚ), "buy")] ⟨"TOK", 1, "FILL"⟩).orders
      (51/50) = some "sell" := by
  have h := (onFill_replacement cfgA envOk [((1 : ℚ), "buy")]
    ⟨"TOK", 1, "FILL"⟩ 1 rfl rfl (by with_unfolding_all decide)).1
    (by with_unfolding_all decide)
  rw [h]
  with_unfolding_all decide

/-- Counterexample to C2 as stated: a tracked buy at 0.5 in a [1, 2] grid with
step 0.1 has replacement 0.6 with 0.6 ≤ max_price, yet the code drops it (the
code also checks the min_price lower bound), placing nothing and leaving the
book empty. -/
theorem onFill_replacement_counterexample :
    obLookup [((1 : ℚ)/2, "buy")] (round4 ((1 : ℚ)/2)) = some "buy" ∧
    ((1 : ℚ)/2 + cfgLow.bin_step ≤ cfgLow.max_price) ∧
    (on_fill cfgLow envOk [((1 : ℚ)/2, "buy")] ⟨"TOK", 1/2, "FILL"⟩).orders = [] ∧
    (on_fill cfgLow envOk [((1 : ℚ)/2, "buy")] ⟨"TOK", 1/2, "FILL"⟩).placed = [] := by
  with_unfolding_all decide

/-- C6 (amended): when bin_step is at least one rounding tick (0.0001, the
dashboard's minimum input step), processing the same fill notification twice
leaves the order book exactly as processing it once: the replacement level
differs from the filled level, so the second delivery finds the level absent
and no-ops. -/
theorem onFill_idempotent (cfg : Config) (env : Env) (ob : OrderBook)
    (t : Trade) (hstep : 1/10000 ≤ cfg.bin_step) :
    (on_fill cfg env (on_fill cfg env ob t).orders t).orders =
      (on_fill cfg env ob t).orders := by
  by_cases hm : t.coin ≠ cfg.token ∨ t.trade_type ≠ "FILL"
  · have h1 : on_fill cfg env ob t = ⟨ob, [], []⟩ :=
      on_fill_of_body (onFillBody_ignored cfg env ob t hm)
    rw [h1]
    rw [show (⟨ob, [], []⟩ : FillOut).orders = ob from rfl, h1]
  · push_neg at hm
    obtain ⟨hc, ht⟩ := hm
    cases hl : obLookup ob (round4 t.price) with
    | none =>
        have h1 : on_fill cfg env ob t =
            ⟨ob, [], ["Fill detected", "No active order found"]⟩ :=
          on_fill_of_body (onFillBody_untracked cfg env ob t hc ht hl)
        rw [h1]
        rw [show (⟨ob, [], ["Fill detected", "No active order found"]⟩ :
          FillOut).orders = ob from rfl, h1]
    | some side =>
        have hnone : obLookup (on_fill cfg env ob t).orders
            (round4 t.price) = none := by
          by_cases hs : side = ""
          · subst hs
            rw [on_fill_of_body (onFillBody_emptyside cfg env ob t hc ht hl)]
            rw [show (⟨obErase ob (round4 t.price), [],
              ["Fill detected", "No active order found"]⟩ :
              FillOut).orders = obErase ob (round4 t.price) from rfl]
            rw [obLookup_obErase]
            exact if_pos rfl
          · rw [on_fill_of_body
              (onFillBody_tracked cfg env ob t side hc ht hl hs)]
            by_cases hb : side = "buy"
            · subst hb
              rw [fillReplace_orders_buy]
              have hne : ¬ (round4 t.price =
                  round4 (round4 t.price + cfg.bin_step)) :=
                ne_of_lt (round4_add_gt (roundHalfEven (t.price * 10000))
                  cfg.bin_step hstep)
              split_ifs with h1 h2
              · rw [obLookup_obInsert, if_neg hne, obLookup_obErase]
                exact if_pos rfl
              · rw [obLookup_obErase]
                exact if_pos rfl
              · rw [obLookup_obErase]
                exact if_pos rfl
            · rw [fillReplace_orders_notbuy cfg env ob _ side hb]
              have hne : ¬ (round4 t.price =
                  round4 (round4 t.price - cfg.bin_step)) :=
                ne_of_gt (round4_sub_lt (roundHalfEven (t.price * 10000))
                  cfg.bin_step hstep)
              split_ifs with h1 h2
              · rw [obLookup_obInsert, if_neg hne, obLookup_obErase]
                exact if_pos rfl
              · rw [obLookup_obErase]
                exact if_pos rfl
              · rw [obLookup_obErase]
                exact if_pos rfl
        rw [on_fill_of_body (onFillBody_untracked cfg env _ t hc ht hnone)]

/-- Witness for C6 at a concrete duplicate delivery. -/
theorem onFill_idempotent_witness :
    (on_fill cfgA envOk
      (on_fill cfgA envOk [((1 : ℚ), "buy")] ⟨"TOK", 1, "FILL"⟩).orders
      ⟨"TOK", 1, "FILL"⟩).orders =
    (on_fill cfgA envOk [((1 : ℚ), "buy")] ⟨"TOK", 1, "FILL"⟩).orders :=
  onFill_idempotent cfgA envOk [((1 : ℚ), "buy")] ⟨"TOK", 1, "FILL"⟩
    (by with_unfolding_all decide)

/-- Counterexample to C6 as stated: with the spec-valid bin_step 0.00001 the
replacement price rounds back onto the filled level, so the second delivery of
the same fill flips the side again and the book differs from single
processing. -/
theorem onFill_idempotent_counterexample :
    (on_fill cfgTiny envOk
      (on_fill cfgTiny envOk [((1 : ℚ), "buy")] ⟨"TOK", 1, "FILL"⟩).orders
      ⟨"TOK", 1, "FILL"⟩).orders ≠
    (on_fill cfgTiny envOk [((1 : ℚ), "buy")] ⟨"TOK", 1, "FILL"⟩).orders ∧
    0 < cfgTiny.bin_step ∧
    cfgTiny.bin_step < cfgTiny.max_price - cfgTiny.min_price := by
  with_unfolding_all decide

/-- C5: for a stopped bot, start() fails atomically: if cancelling orders or
fetching the reference price raises, start returns False, the bot is still not
running (there is no intermediate Starting state to be stuck in), the order
book is untouched and log entries were appended; the running flag always
equals the returned boolean, and success implies every fallible startup step
returned ok. -/
theorem start_failure_stopped (bot : Bot) (env : Env)
    (hr : bot.running = false) :
    ((start bot env).bot.running = (start bot env).ok) ∧
    ((∀ u, env.cancelAllResult ≠ Except.ok u) →
      (start bot env).ok = false ∧ (start bot env).bot.running = false ∧
      (start bot env).bot.orders = bot.orders ∧
      bot.logs.length + 2 = (start bot env).bot.logs.length) ∧
    ((∀ lc, env.lastCloseResult ≠ Except.ok lc) →
      (start bot env).ok = false ∧ (start bot env).bot.running = false ∧
      (start bot env).bot.orders = bot.orders ∧
      bot.logs.length + 2 = (start bot env).bot.logs.length) ∧
    ((start bot env).ok = true →
      env.cancelAllResult = Except.ok () ∧
      ∃ lc, env.lastCloseResult = Except.ok lc) := by
  unfold start
  rw [hr]
  simp only [Bool.false_eq_true, if_false]
  cases hca : env.cancelAllResult with
  | error ec =>
      dsimp only
      refine ⟨rfl, ?_, ?_, ?_⟩
      · intro _
        exact ⟨rfl, rfl, rfl, by simp [List.length_append]⟩
      · intro _
        exact ⟨rfl, rfl, rfl, by simp [List.length_append]⟩
      · intro hcon
        exact absurd hcon (by simp)
  | ok u =>
      cases u
      dsimp only
      cases hcl : env.lastCloseResult with
      | error ec =>
          dsimp only
          refine ⟨rfl, ?_, ?_, ?_⟩
          · intro hfail
            exact absurd rfl (hfail ())
          · intro _
            exact ⟨rfl, rfl, rfl, by simp [List.length_append]⟩
          · intro hcon
            exact absurd hcon (by simp)
      | ok lc =>
          dsimp only
          generalize build bot.cfg lc = bres
          cases bres with
          | none =>
              refine ⟨rfl, ?_, ?_, ?_⟩
              · intro hfail
                exact absurd rfl (hfail ())
              · intro hfail
                exact absurd rfl (hfail lc)
              · intro hcon
                exact absurd hcon (by simp)
          | some pr =>
              obtain ⟨buys, sells⟩ := pr
              refine ⟨rfl, ?_, ?_, ?_⟩
              · intro hfail
                exact absurd rfl (hfail ())
              · intro hfail
                exact absurd rfl (hfail lc)
              · intro _
                exact ⟨rfl, lc, rfl⟩

/-- Witness for C5 with a price-fetch failure environment. -/
theorem start_failure_stopped_witness :
    (start (mkBot cfgA) envNoPrice).ok = false ∧
    (start (mkBot cfgA) envNoPrice).bot.running = false := by
  have h := start_failure_stopped (mkBot cfgA) envNoPrice rfl
  have h2 := h.2.2.1 (by intro lc hcon; simp [envNoPrice] at hcon)
  exact ⟨h2.1, h2.2.1⟩

/-- C4 (amended): the no-op-with-failure guard exists only at the RunningBot
instance level: calling start on an instance whose running flag is set returns
False, logs "Bot is already running", keeps it running and performs no cancel
or placement. The registry-level start_bot never consults the registry: it
always starts a fresh bot; the registry does keep at most one entry per
identifier (key list stays duplicate-free). -/
theorem start_already_running_registry (bot : Bot) (env : Env) (reg : Registry)
    (bid : String) (cfg : Config) (hr : bot.running = true)
    (hnd : (reg.map Prod.fst).Nodup) :
    (start bot env).ok = false ∧
    (start bot env).bot.orders = bot.orders ∧
    (start bot env).bot.running = true ∧
    (start bot env).placedCalls = [] ∧
    (start bot env).cancelCalled = false ∧
    (start bot env).bot.logs = bot.logs ++ ["Bot is already running"] ∧
    ((start_bot reg bid cfg env).1.map Prod.fst).Nodup := by
  have hreg : ((start_bot reg bid cfg env).1.map Prod.fst).Nodup := by
    unfold start_bot
    dsimp only
    split
    · exact regInsert_nodup reg bid _ hnd
    · exact hnd
  unfold start
  rw [hr]
  rw [if_pos rfl]
  exact ⟨rfl, rfl, rfl, rfl, rfl, rfl, hreg⟩

/-- Witness for C4 at a registered running bot. -/
theorem start_already_running_registry_witness :
    (start runningBotA envOk).ok = false ∧
    (start runningBotA envOk).placedCalls = [] ∧
    ((start_bot regA "b" cfgA envOk).1.map Prod.fst).Nodup := by
  have h := start_already_running_registry runningBotA envOk regA "b" cfgA rfl
    (by with_unfolding_all decide)
  exact ⟨h.1, h.2.2.2.1, h.2.2.2.2.2.2⟩

/-- Counterexample to C4 as stated: with identifier b already registered as a
running bot, start_bot reports success (not failure) and the fresh startup it
runs both cancels orders and places the whole grid again. -/
theorem start_bot_restart_counterexample :
    runningBotA.running = true ∧ regLookup regA "b" = some runningBotA ∧
    (start_bot regA "b" cfgA envOk).2 = true ∧
    (start (mkBot cfgA) envOk).cancelCalled = true ∧
    (start (mkBot cfgA) envOk).placedCalls ≠ [] := by
  with_unfolding_all decide

/-- C9: stop() never touches the active_orders book on any path, raising or
not (it only stops the monitor, cancels exchange orders and clears the running
flag), so any level tracked before stop is still present in the book after a
subsequent start() completes, whatever either environment does. The flags are
cleared exactly when the collaborators return: if `monitor.stop()` or
`cancel_all` raises, the exception propagates (stop has no `try`/`except`)
and `running` stays `true`. -/
theorem stop_preserves_orderbook (bot : Bot) (env env2 : Env) (k : ℚ)
    (hk : (obLookup bot.orders k).isSome = true) :
    (stop bot env).orders = bot.orders ∧ (stop bot env).cfg = bot.cfg ∧
    (bot.running = true → env.monitorStopResult = Except.ok () →
      env.cancelAllResult = Except.ok () →
      (stop bot env).running = false ∧ (stop bot env).monitorOn = false) ∧
    (bot.running = true → bot.monitorOn = true →
      (∀ u, env.monitorStopResult ≠ Except.ok u) →
      (stop bot env).running = true) ∧
    (obLookup (start (stop bot env) env2).bot.orders k).isSome = true := by
  have hgen : ∀ b : Bot, (obLookup b.orders k).isSome = true →
      (obLookup (start b env2).bot.orders k).isSome = true := by
    intro b hb
    unfold start
    split_ifs with h1
    · exact hb
    · cases hca : env2.cancelAllResult with
      | error ec => exact hb
      | ok u =>
          dsimp only
          cases hcl : env2.lastCloseResult with
          | error ec => exact hb
          | ok lc =>
              dsimp only
              generalize build b.cfg lc = bres
              cases bres with
              | none => exact hb
              | some pr =>
                  obtain ⟨buys, sells⟩ := pr
                  exact placeMany_isSome env2 b.cfg "sell" (sortQ sells) _ k
                    (placeMany_isSome env2 b.cfg "buy" (sortQ buys) b.orders k hb)
  have hfields : (stop bot env).orders = bot.orders ∧
      (stop bot env).cfg = bot.cfg := by
    unfold stop
    split_ifs with h1 h2
    · cases env.monitorStopResult with
      | error e => exact ⟨rfl, rfl⟩
      | ok u =>
          cases env.cancelAllResult with
          | error e => exact ⟨rfl, rfl⟩
          | ok u2 => exact ⟨rfl, rfl⟩
    · cases env.cancelAllResult with
      | error e => exact ⟨rfl, rfl⟩
      | ok u => exact ⟨rfl, rfl⟩
    · exact ⟨rfl, rfl⟩
  refine ⟨hfields.1, hfields.2, ?_, ?_, ?_⟩
  · intro hr hm hc
    unfold stop
    rw [hr, if_pos rfl]
    by_cases hmon : bot.monitorOn = true
    · rw [if_pos hmon, hm, hc]
      exact ⟨rfl, rfl⟩
    · rw [if_neg hmon, hc]
      refine ⟨rfl, ?_⟩
      simpa using hmon
  · intro hr hmon hf
    unfold stop
    rw [hr, if_pos rfl, if_pos hmon]
    cases hms : env.monitorStopResult with
    | error e => rfl
    | ok u => exact absurd hms (hf u)
  · exact hgen (stop bot env) (by rw [hfields.1]; exact hk)

/-- Witness for C9 at a concrete running bot with all-succeeding
collaborators. -/
theorem stop_preserves_orderbook_witness :
    (stop runningBotA envOk).orders = runningBotA.orders ∧
    (stop runningBotA envOk).running = false ∧
    (obLookup (start (stop runningBotA envOk) envOk).bot.orders 1).isSome =
      true := by
  have h := stop_preserves_orderbook runningBotA envOk envOk 1
    (by with_unfolding_all decide)
  exact ⟨h.1, (h.2.2.1 rfl rfl rfl).1, h.2.2.2.2⟩

/-- C10: the order-book well-formedness invariant (every key a 4-decimal
rounded price, every value a lowercase "buy"/"sell") is preserved by
place_order whenever the lowercased side is one of the two side strings, and
by on_fill unconditionally. -/
theorem orderbook_invariant_preserved (env : Env) (cfg : Config) (price : ℚ)
    (side : String) (ob : OrderBook) (t : Trade)
    (hob : obWellFormed ob)
    (hside : side.toLower = "buy" ∨ side.toLower = "sell") :
    obWellFormed (place_order env cfg price side ob).orders ∧
    obWellFormed (on_fill cfg env ob t).orders := by
  constructor
  · rw [place_order_eq]
    split_ifs with h1
    · exact obWellFormed_obInsert ob (round4 price) side.toLower hob
        (round4_idem price) hside
    · exact hob
  · by_cases hm : t.coin ≠ cfg.token ∨ t.trade_type ≠ "FILL"
    · rw [on_fill_of_body (onFillBody_ignored cfg env ob t hm)]
      exact hob
    · push_neg at hm
      cases hl : obLookup ob (round4 t.price) with
      | none =>
          rw [on_fill_of_body (onFillBody_untracked cfg env ob t hm.1 hm.2 hl)]
          exact hob
      | some side2 =>
          by_cases hs : side2 = ""
          · subst hs
            rw [on_fill_of_body (onFillBody_emptyside cfg env ob t hm.1 hm.2 hl)]
            exact obWellFormed_obErase ob _ hob
          · rw [on_fill_of_body
              (onFillBody_tracked cfg env ob t side2 hm.1 hm.2 hl hs)]
            by_cases hb : side2 = "buy"
            · subst hb
              rw [fillReplace_orders_buy]
              split_ifs with h1 h2
              · exact obWellFormed_obInsert _ _ _
                  (obWellFormed_obErase ob _ hob) (round4_idem _) (Or.inr rfl)
              · exact obWellFormed_obErase ob _ hob
              · exact obWellFormed_obErase ob _ hob
            · rw [fillReplace_orders_notbuy cfg env ob _ side2 hb]
              split_ifs with h1 h2
              · exact obWellFormed_obInsert _ _ _
                  (obWellFormed_obErase ob _ hob) (round4_idem _) (Or.inl rfl)
              · exact obWellFormed_obErase ob _ hob
              · exact obWellFormed_obErase ob _ hob

/-- Witness for C10 at a concrete book and an uppercase side string. -/
theorem orderbook_invariant_preserved_witness :
    obWellFormed (place_order envOk cfgA (201/200) "BUY" [((1 : ℚ), "buy")]).orders ∧
    obWellFormed (on_fill cfgA envOk [((1 : ℚ), "buy")] ⟨"TOK", 1, "FILL"⟩).orders := by
  have hob : obWellFormed [((1 : ℚ), "buy")] := by
    intro e he
    simp only [List.mem_singleton] at he
    subst he
    exact ⟨by with_unfolding_all decide, Or.inl rfl⟩
  exact orderbook_invariant_preserved envOk cfgA (201/200) "BUY"
    [((1 : ℚ), "buy")] ⟨"TOK", 1, "FILL"⟩ hob
    (Or.inl (by with_unfolding_all decide))

/-- C1 (amended): for every valid config, build partitions the code's level
sequence (np.arange from min_price while below max_price + bin_step/2, each
level rounded to 4 decimals) into buys strictly below and sells strictly above
the excluded closest level; the three parts are pairwise disjoint and their
union is exactly that sequence. -/
theorem grid_build_partition (cfg : Config) (lc : ℚ)
    (h1 : cfg.min_price < cfg.max_price) (h2 : 0 < cfg.bin_step)
    (h3 : cfg.bin_step < cfg.max_price - cfg.min_price) :
    ∃ c buys sells, closestLevel cfg lc = some c ∧
      build cfg lc = some (buys, sells) ∧
      (∀ x : ℚ, x ∈ gridLevels cfg ↔ (x ∈ buys ∨ x ∈ sells ∨ x = c)) ∧
      (∀ x ∈ buys, x < c) ∧ (∀ x ∈ sells, c < x) ∧
      (∀ x ∈ buys, x ∉ sells) ∧ c ∉ buys ∧ c ∉ sells := by
  obtain ⟨x, xs, hx⟩ := List.exists_cons_of_ne_nil (gridLevels_ne_nil cfg h1 h2)
  have hcl : closestLevel cfg lc =
      some (xs.foldl (pickMin (fun z => |z - round4 lc|)) x) :=
    closestLevel_eq_foldl cfg lc x xs hx
  set c := xs.foldl (pickMin (fun z => |z - round4 lc|)) x with hc
  have hmem : c ∈ gridLevels cfg := by
    rw [hx]
    exact foldl_pickMin_mem (fun z => |z - round4 lc|) xs x
  have hbuild : build cfg lc = some
      ((removeFirst (gridLevels cfg) c).filter (fun p => decide (p < c)),
       (removeFirst (gridLevels cfg) c).filter (fun p => decide (c < p))) := by
    unfold build
    rw [hcl]
  have hbuys : ∀ x0 : ℚ,
      x0 ∈ (removeFirst (gridLevels cfg) c).filter (fun p => decide (p < c)) →
      x0 < c := by
    intro x0 h0
    exact of_decide_eq_true (List.mem_filter.mp h0).2
  have hsells : ∀ x0 : ℚ,
      x0 ∈ (removeFirst (gridLevels cfg) c).filter (fun p => decide (c < p)) →
      c < x0 := by
    intro x0 h0
    exact of_decide_eq_true (List.mem_filter.mp h0).2
  refine ⟨c, _, _, hcl, hbuild, ?_, hbuys, hsells, ?_, ?_, ?_⟩
  · intro x0
    constructor
    · intro hx0
      by_cases he : x0 = c
      · exact Or.inr (Or.inr he)
      · have hrm := mem_removeFirst_of_ne (gridLevels cfg) c x0 he hx0
        rcases lt_trichotomy x0 c with hlt | heq | hgt
        · exact Or.inl (List.mem_filter.mpr ⟨hrm, decide_eq_true hlt⟩)
        · exact absurd heq he
        · exact Or.inr (Or.inl (List.mem_filter.mpr ⟨hrm, decide_eq_true hgt⟩))
    · intro hx0
      rcases hx0 with h0 | h0 | h0
      · exact removeFirst_subset _ c x0 (List.mem_filter.mp h0).1
      · exact removeFirst_subset _ c x0 (List.mem_filter.mp h0).1
      · exact h0 ▸ hmem
  · intro x0 hb hs
    exact absurd (hsells x0 hs) (not_lt.mpr (le_of_lt (hbuys x0 hb)))
  · intro hcon
    exact absurd (hbuys c hcon) (lt_irrefl c)
  · intro hcon
    exact absurd (hsells c hcon) (lt_irrefl c)

/-- Witness for C1 at the spec scenario config. -/
theorem grid_build_partition_witness :
    ∃ c buys sells, closestLevel cfgA (21/20) = some c ∧
      build cfgA (21/20) = some (buys, sells) ∧
      (∀ x : ℚ, x ∈ gridLevels cfgA ↔ (x ∈ buys ∨ x ∈ sells ∨ x = c)) ∧
      (∀ x ∈ buys, x < c) ∧ (∀ x ∈ sells, c < x) ∧
      (∀ x ∈ buys, x ∉ sells) ∧ c ∉ buys ∧ c ∉ sells :=
  grid_build_partition cfgA (21/20) (by with_unfolding_all decide)
    (by with_unfolding_all decide) (by with_unfolding_all decide)

/-- Counterexample to C1 as stated: with min 1, max 1.016, step 0.01 (a valid
config) the code generates the level 1.02, which exceeds max_price and is not
in the claimed min-to-max-inclusive sequence, yet appears among the sells. -/
theorem grid_union_counterexample :
    cfgOver.min_price < cfgOver.max_price ∧ 0 < cfgOver.bin_step ∧
    cfgOver.bin_step < cfgOver.max_price - cfgOver.min_price ∧
    build cfgOver 1 = some ([], [101/100, 51/50]) ∧
    ((51 : ℚ)/50) ∉ claimedSeq cfgOver ∧
    ¬ ((51 : ℚ)/50 ≤ cfgOver.max_price) := by
  with_unfolding_all decide

/-- C3: the excluded level is the element of the generated sequence
minimizing absolute distance to the rounded reference price, ties broken by
the first minimal element in the scan order (which is ascending); in the spec
scenario min 1.00, max 1.10, step 0.02, reference 1.05 the excluded level is
1.04, buys are [1.00, 1.02] and sells are [1.06, 1.08, 1.10]. Determinism on
repeated calls is immediate since the embedding is a pure function of its
arguments. -/
theorem closest_level_first_argmin (cfg : Config) (lc : ℚ)
    (h1 : cfg.min_price < cfg.max_price) (h2 : 0 < cfg.bin_step) :
    (∃ c, closestLevel cfg lc = some c ∧ c ∈ gridLevels cfg ∧
      (∀ y ∈ gridLevels cfg, |c - round4 lc| ≤ |y - round4 lc|) ∧
      (∃ p s, gridLevels cfg = p ++ c :: s ∧
        ∀ y ∈ p, |c - round4 lc| < |y - round4 lc|)) ∧
    closestLevel cfgA (21/20) = some (26/25) ∧
    build cfgA (21/20) = some ([1, 51/50], [53/50, 27/25, 11/10]) := by
  refine ⟨?_, by with_unfolding_all decide, by with_unfolding_all decide⟩
  obtain ⟨x, xs, hx⟩ := List.exists_cons_of_ne_nil (gridLevels_ne_nil cfg h1 h2)
  refine ⟨xs.foldl (pickMin (fun z => |z - round4 lc|)) x,
    closestLevel_eq_foldl cfg lc x xs hx, ?_, ?_, ?_⟩
  · rw [hx]
    exact foldl_pickMin_mem (fun z => |z - round4 lc|) xs x
  · intro y hy
    rw [hx] at hy
    exact foldl_pickMin_le (fun z => |z - round4 lc|) xs x y hy
  · obtain ⟨p, s, heq, hlt⟩ :=
      foldl_pickMin_first (fun z => |z - round4 lc|) xs x
    exact ⟨p, s, by rw [hx, heq], hlt⟩

/-- Witness for C3 at the spec scenario config. -/
theorem closest_level_first_argmin_witness :
    closestLevel cfgA (21/20) = some (26/25) :=
  (closest_level_first_argmin cfgA (21/20) (by with_unfolding_all decide)
    (by with_unfolding_all decide)).2.1


end GridBot
